import Mathlib

/-!
Verification development for the agent-executor command-coordination system.

The coordinator (control-server) keeps a SQLite table of commands; the
embedding models the table as a `List Command` in row order.  The operations
below are shallow embeddings of:

* `CommandsRepository` (control-server/src/repositories/commands.repository.ts):
  `create`, `findById`, `findNextPending`, `assignToAgent`, `updateResult`,
  `resetRunningToFailed`;
* `CommandsService` (control-server services, repository-based version):
  `createCommand`, `getNextPendingCommand`, `recoverRunningCommands`;
* `CommandsController.updateCommandResult`
  (control-server/src/controllers/commands.controller.ts);
* the agent side (agent/src): the idempotency guard
  (`isCommandExecuted` / `markCommandExecuted`), `executeCommand`
  (agent/src/executors/index.ts), the poll-loop body of `main`
  (agent/src/agent.ts), and `executeHttpGetJson`
  (agent/src/executors/http-get-json.ts).

Timestamps (`Date.now()`) are modelled as `Nat` values passed in explicitly.
Strings carried opaquely by the code (JSON payloads) stay `String`; HTTP
response bodies, which the code truncates by UTF-16 code-unit index via
`String.prototype.slice`, are modelled as `List Char` so that `slice(0, n)`
is `List.take n` and `.length` is `List.length`.
-/

/-- Command type tags (control-server/src/types, agent/src/types). -/
inductive CommandType
  | DELAY
  | HTTP_GET_JSON
  deriving DecidableEq, Repr

/-- Command lifecycle status (`PENDING | RUNNING | COMPLETED | FAILED`). -/
inductive CommandStatus
  | PENDING
  | RUNNING
  | COMPLETED
  | FAILED
  deriving DecidableEq, Repr

/-- Result of the HTTP_GET_JSON executor.  The TypeScript `body` field is
`object | string | null`; `JSON.parse` of the (possibly truncated) body text
either yields a structured reading of that same text or the text itself, so
the model records the underlying text (`some chars`) or `null` (`none`). -/
structure HttpGetJsonResult where
  status : Nat
  body : Option (List Char)
  truncated : Bool
  bytesReturned : Nat
  error : Option String
  deriving DecidableEq, Repr

/-- Tagged union `CommandResult = DelayResult | HttpGetJsonResult`. -/
inductive CommandResult
  | delay (ok : Bool) (tookMs : Nat)
  | http (r : HttpGetJsonResult)
  deriving DecidableEq, Repr

/-- A row of the `commands` table (schema.sql / the `CommandRow` interface).
`result`, `agentId` and `assignedAt` are nullable columns. -/
structure Command where
  id : String
  type : CommandType
  payload : String
  status : CommandStatus
  result : Option CommandResult
  agentId : Option String
  createdAt : Nat
  updatedAt : Nat
  assignedAt : Option Nat
  deriving DecidableEq, Repr

/-- The coordinator's command store: the rows of the `commands` table in
table order. -/
abbrev Store := List Command

/-- Embeds `CommandsRepository.create` / `CommandsService.createCommand`: INSERT a
new row with status 'PENDING', `createdAt = updatedAt = now`, and NULL
`result`, `agentId`, `assignedAt`. -/
def createCommand (store : Store) (id : String) (ty : CommandType)
    (payload : String) (now : Nat) : Store :=
  store ++ [{ id := id, type := ty, payload := payload,
              status := .PENDING, result := none, agentId := none,
              createdAt := now, updatedAt := now, assignedAt := none }]

/-- Embeds `CommandsRepository.findById`: `SELECT * FROM commands WHERE id = ?`
(first matching row). -/
def findById (store : Store) (id : String) : Option Command :=
  store.find? (fun c => c.id = id)

/-- A row is eligible for assignment when its status is in
`('PENDING', 'FAILED')` (the WHERE clause of `findNextPending`). -/
def eligible (c : Command) : Bool :=
  c.status = .PENDING || c.status = .FAILED

/-- Meaning of `ORDER BY createdAt ASC LIMIT 1` over a list of rows: the first row of
minimal `createdAt` (SQLite returns some row of minimal key; the model fixes
the stable choice, which is irrelevant to the proved properties). -/
def selectOldest : List Command → Option Command
  | [] => none
  | c :: rest =>
      match selectOldest rest with
      | none => some c
      | some b => if b.createdAt < c.createdAt then some b else some c

/-- Embeds `CommandsRepository.findNextPending`:
`SELECT * FROM commands WHERE status IN ('PENDING','FAILED')
 ORDER BY createdAt ASC LIMIT 1`. -/
def findNextPending (store : Store) : Option Command :=
  selectOldest (store.filter eligible)

/-- Embeds `CommandsRepository.assignToAgent`: UPDATE the row(s) with this id to
`status = 'RUNNING', agentId = ?, updatedAt = ?, assignedAt = ?`. -/
def assignToAgent (store : Store) (id : String) (agentId : String)
    (now : Nat) : Store :=
  store.map fun c =>
    if c.id = id then
      { c with status := .RUNNING, agentId := some agentId,
               updatedAt := now, assignedAt := some now }
    else c

/-- Embeds `CommandsService.getNextPendingCommand` (repository-based version): inside
one SQLite transaction, `findNextPending`; if no row, return null; otherwise
`assignToAgent` and return the row overlaid with
`{status: RUNNING, agentId, updatedAt: now, assignedAt: now}`.  The pair is
(returned command, store after the transaction). -/
def getNextPendingCommand (store : Store) (agentId : String) (now : Nat) :
    Option Command × Store :=
  match findNextPending store with
  | none => (none, store)
  | some row =>
      (some { row with status := .RUNNING, agentId := some agentId,
                       updatedAt := now, assignedAt := some now },
       assignToAgent store row.id agentId now)

/-- Embeds `CommandsRepository.updateResult`: UPDATE the row(s) with this id to
`result = ?, status = 'COMPLETED', updatedAt = ?`. -/
def updateResult (store : Store) (id : String) (result : CommandResult)
    (now : Nat) : Store :=
  store.map fun c =>
    if c.id = id then
      { c with result := some result, status := .COMPLETED, updatedAt := now }
    else c

/-- Embeds `CommandsRepository.resetRunningToFailed` /
`CommandsService.recoverRunningCommands`:
`UPDATE commands SET status='FAILED', updatedAt=?, agentId=NULL,
 assignedAt=NULL WHERE status='RUNNING'`, returning `info.changes`
(the number of rows matched by the WHERE clause).  Modelled as one pass
that rewrites matching rows and counts them. -/
def resetRunningToFailed (now : Nat) : Store → Nat × Store
  | [] => (0, [])
  | c :: rest =>
      let (n, rest') := resetRunningToFailed now rest
      if c.status = .RUNNING then
        (n + 1, { c with status := .FAILED, updatedAt := now,
                         agentId := none, assignedAt := none } :: rest')
      else
        (n, c :: rest')

/-- Outcome of a PUT /commands/:id/result request, the distinct replies of
`CommandsController.updateCommandResult`. -/
inductive SubmitOutcome
  | ok
  | missingField
  | notFound
  | invalidState
  | ownershipMismatch
  deriving DecidableEq, Repr

/-- Embeds `CommandsController.updateCommandResult`: reject a falsy body field
(`!result || !agentId` — in the typed model `result` is always present and
only the empty string is a falsy `agentId`); then 404 if the command does not
exist, 400 if it is not RUNNING, 400 if it is bound to a different agent;
otherwise commit `updateResult`.  Returns the reply together with the store
after the request (unchanged on every non-ok outcome). -/
def updateCommandResult (store : Store) (id : String) (agentId : String)
    (result : CommandResult) (now : Nat) : SubmitOutcome × Store :=
  if agentId = "" then (.missingField, store)
  else
    match findById store id with
    | none => (.notFound, store)
    | some c =>
        if c.status ≠ .RUNNING then (.invalidState, store)
        else if c.agentId ≠ some agentId then (.ownershipMismatch, store)
        else (.ok, updateResult store id result now)

/-! ### Agent side -/

/-- The agent's idempotency database (agent/src/services/idempotency.ts):
the `executed_commands` table, modelled as the list of recorded command ids. -/
abbrev Guard := List String

/-- Embeds `isCommandExecuted`: SELECT by primary key in `executed_commands`. -/
def isCommandExecuted (guard : Guard) (commandId : String) : Bool :=
  guard.contains commandId

/-- Embeds `markCommandExecuted`: `INSERT OR IGNORE INTO executed_commands`
(a no-op when the id is already present). -/
def markCommandExecuted (guard : Guard) (commandId : String) : Guard :=
  if guard.contains commandId then guard else guard ++ [commandId]

/-- Embeds `executeCommand` (agent/src/executors/index.ts): throw
"Command already executed" when the idempotency guard already holds the id;
otherwise dispatch to the executor for the command's type (here the abstract
`run`, which itself may throw), then record the id in the guard and return
the result.  Errors are `Except.error`; the updated guard rides along with
the result. -/
def executeCommand (guard : Guard) (c : Command)
    (run : Command → Except String CommandResult) :
    Except String (CommandResult × Guard) :=
  if isCommandExecuted guard c.id then
    .error "Command already executed"
  else
    match run c with
    | .error e => .error e
    | .ok r => .ok (r, markCommandExecuted guard c.id)

/-- One iteration of the poll loop of `main` (agent/src/agent.ts), given the
command returned by `pollForCommand` (none on HTTP 204).  The simulated-crash
branches (`--kill-after`, `--random-failures`) exit the whole process and are
not part of the per-cycle data flow modelled here.  If polling returned no
command the loop sleeps; otherwise it awaits `executeCommand` and then
`submitResult(command.id, result, agentId)`.  Any thrown error is caught by
the surrounding try/catch, which logs and sleeps — in particular no
`submitResult` call happens on that cycle.  The first component is the
submission made this cycle (command id with its result), if any; the second
is the idempotency guard after the cycle. -/
def agentCycle (guard : Guard) (claimed : Option Command)
    (run : Command → Except String CommandResult) :
    Option (String × CommandResult) × Guard :=
  match claimed with
  | none => (none, guard)
  | some c =>
      match executeCommand guard c run with
      | .error _ => (none, guard)
      | .ok (r, guard') => (some (c.id, r), guard')

/-- Constant `MAX_BODY_SIZE = 1024 * 100` (agent/src/executors/http-get-json.ts). -/
def MAX_BODY_SIZE : Nat := 1024 * 100

/-- What the awaited `fetch(url)` + `response.text()` produced: either the
HTTP status with the full response text, or a thrown error's message. -/
abbrev FetchOutcome := Except String (Nat × List Char)

/-- Embeds `executeHttpGetJson` (agent/src/executors/http-get-json.ts).  On a
successful fetch: `bytesReturned = text.length`,
`truncated = bytesReturned > MAX_BODY_SIZE`, and the body is
`text.slice(0, MAX_BODY_SIZE)` when truncated, the full text otherwise
(`JSON.parse` of that text is kept as the text itself, see
`HttpGetJsonResult.body`).  The whole function body is wrapped in try/catch:
a thrown fetch error becomes the value
`{status: 0, body: null, truncated: false, bytesReturned: 0, error: message}`
— the function never throws. -/
def executeHttpGetJson (fetched : FetchOutcome) : HttpGetJsonResult :=
  match fetched with
  | .ok (status, text) =>
      let bytesReturned := text.length
      let truncated := bytesReturned > MAX_BODY_SIZE
      let bodyText := if truncated then text.take MAX_BODY_SIZE else text
      { status := status, body := some bodyText, truncated := truncated,
        bytesReturned := bytesReturned, error := none }
  | .error msg =>
      { status := 0, body := none, truncated := false,
        bytesReturned := 0, error := some msg }

/-! ### Derived notions used by the theorems -/

/-- Ids of the rows currently eligible for assignment, in table order. -/
def eligibleIds (store : Store) : List String :=
  (store.filter eligible).map Command.id

/-- A sequence of claim calls: each entry provides the calling agent's id and
the `Date.now()` of its transaction.  Returns the per-call results and the
final store. -/
def claimSeq (store : Store) : List (String × Nat) → List (Option Command) × Store
  | [] => ([], store)
  | (a, t) :: rest =>
      let (c, store') := getNextPendingCommand store a t
      let (cs, store'') := claimSeq store' rest
      (c :: cs, store'')

/-- Data-model invariant of §3: `result` is non-null iff `status = COMPLETED`,
for every row of the store. -/
def StoreInv (store : Store) : Prop :=
  ∀ c ∈ store, (c.result ≠ none ↔ c.status = .COMPLETED)

instance : DecidablePred StoreInv := fun store =>
  List.decidableBAll _ store

/-- Number of rows currently in RUNNING status (the rows matched by the
recovery UPDATE's WHERE clause). -/
def countRunning (store : Store) : Nat :=
  (store.filter fun c => c.status = .RUNNING).length

/-- The per-row effect of the recovery UPDATE: a RUNNING row becomes FAILED
with `agentId` and `assignedAt` cleared and `updatedAt` refreshed; any other
row is untouched. -/
def recoverRow (now : Nat) (c : Command) : Command :=
  if c.status = .RUNNING then
    { c with status := .FAILED, updatedAt := now,
             agentId := none, assignedAt := none }
  else c

/-- Concrete fixture: an old FAILED command (eligible for re-assignment). -/
def exFailed : Command :=
  { id := "cmd-a", type := .DELAY, payload := "ms=100", status := .FAILED,
    result := none, agentId := none, createdAt := 1, updatedAt := 5,
    assignedAt := none }

/-- Concrete fixture: a newer PENDING command. -/
def exPending : Command :=
  { id := "cmd-b", type := .HTTP_GET_JSON, payload := "url=example",
    status := .PENDING, result := none, agentId := none, createdAt := 2,
    updatedAt := 2, assignedAt := none }

/-- Concrete fixture: a RUNNING command bound to agent-1. -/
def exRunning : Command :=
  { id := "cmd-c", type := .DELAY, payload := "ms=1", status := .RUNNING,
    result := none, agentId := some "agent-1", createdAt := 0, updatedAt := 3,
    assignedAt := some 3 }

/-! ### Lemmas about selection -/

theorem selectOldest_eq_none {l : List Command} :
    selectOldest l = none ↔ l = [] := by
  cases l with
  | nil => simp [selectOldest]
  | cons c rest =>
      simp only [selectOldest]
      constructor
      · intro h
        cases hrest : selectOldest rest with
        | none => rw [hrest] at h; simp at h
        | some b =>
            rw [hrest] at h
            by_cases hlt : b.createdAt < c.createdAt <;> simp [hlt] at h
      · intro h; exact absurd h (by simp)

theorem selectOldest_mem {l : List Command} {r : Command}
    (h : selectOldest l = some r) : r ∈ l := by
  induction l generalizing r with
  | nil => simp [selectOldest] at h
  | cons c rest ih =>
      simp only [selectOldest] at h
      cases hrest : selectOldest rest with
      | none =>
          rw [hrest] at h
          simp at h
          simp [h]
      | some b =>
          rw [hrest] at h
          by_cases hlt : b.createdAt < c.createdAt
          · simp only [if_pos hlt, Option.some.injEq] at h
            exact List.mem_cons_of_mem _ (h ▸ ih hrest)
          · simp only [if_neg hlt, Option.some.injEq] at h
            exact h ▸ List.mem_cons_self _ _

theorem selectOldest_min {l : List Command} {r : Command}
    (h : selectOldest l = some r) :
    ∀ d ∈ l, r.createdAt ≤ d.createdAt := by
  induction l generalizing r with
  | nil => simp [selectOldest] at h
  | cons c rest ih =>
      simp only [selectOldest] at h
      cases hrest : selectOldest rest with
      | none =>
          rw [hrest] at h
          simp only [Option.some.injEq] at h
          have : rest = [] := selectOldest_eq_none.mp hrest
          subst this
          intro d hd
          simp at hd
          subst hd
          exact h ▸ Nat.le_refl _
      | some b =>
          rw [hrest] at h
          intro d hd
          have hrc : r.createdAt ≤ c.createdAt ∧
              ∀ e ∈ rest, r.createdAt ≤ e.createdAt := by
            by_cases hlt : b.createdAt < c.createdAt
            · simp only [if_pos hlt, Option.some.injEq] at h
              subst h
              exact ⟨Nat.le_of_lt hlt, ih hrest⟩
            · simp only [if_neg hlt, Option.some.injEq] at h
              subst h
              refine ⟨Nat.le_refl _, fun e he => ?_⟩
              exact Nat.le_trans (Nat.le_of_not_lt hlt) (ih hrest e he)
          rcases List.mem_cons.mp hd with hd | hd
          · exact hd ▸ hrc.1
          · exact hrc.2 d hd

theorem findNextPending_eq_none {store : Store} :
    findNextPending store = none ↔ store.filter eligible = [] := by
  unfold findNextPending
  exact selectOldest_eq_none

theorem findNextPending_spec {store : Store} {r : Command}
    (h : findNextPending store = some r) :
    r ∈ store ∧ eligible r = true ∧
      ∀ d ∈ store, eligible d = true → r.createdAt ≤ d.createdAt := by
  unfold findNextPending at h
  have hmem := selectOldest_mem h
  have hel : eligible r = true := (List.mem_filter.mp hmem).2
  refine ⟨(List.mem_filter.mp hmem).1, hel, ?_⟩
  intro d hd hde
  exact selectOldest_min h d (List.mem_filter.mpr ⟨hd, hde⟩)

/-! ### Lemmas about assignment -/

theorem assignToAgent_map_id (store : Store) (id agentId : String) (now : Nat) :
    (assignToAgent store id agentId now).map Command.id = store.map Command.id := by
  induction store with
  | nil => rfl
  | cons c rest ih =>
      simp only [assignToAgent, List.map_cons] at ih ⊢
      by_cases hc : c.id = id <;> simp [hc, ih]

theorem assignToAgent_of_absent {store : Store} {id : String}
    (h : ∀ c ∈ store, c.id ≠ id) (agentId : String) (now : Nat) :
    assignToAgent store id agentId now = store := by
  induction store with
  | nil => rfl
  | cons c rest ih =>
      simp only [assignToAgent, List.map_cons]
      rw [if_neg (h c (List.mem_cons_self _ _))]
      have := ih (fun d hd => h d (List.mem_cons_of_mem _ hd))
      simpa [assignToAgent] using this

theorem eligible_assigned (c : Command) (agentId : String) (now : Nat) :
    eligible { c with status := .RUNNING, agentId := some agentId,
                      updatedAt := now, assignedAt := some now } = false := by
  simp [eligible]

theorem eligibleIds_assign {store : Store} {r : Command}
    (hnd : (store.map Command.id).Nodup) (hmem : r ∈ store)
    (hel : eligible r = true) (agentId : String) (now : Nat) :
    eligibleIds (assignToAgent store r.id agentId now) =
      (eligibleIds store).erase r.id := by
  induction store with
  | nil => simp at hmem
  | cons c rest ih =>
      simp only [List.map_cons, List.nodup_cons] at hnd
      by_cases hc : c.id = r.id
      · have hrc : r = c := by
          rcases List.mem_cons.mp hmem with h | h
          · exact h
          · exact absurd (hc ▸ List.mem_map_of_mem Command.id h) hnd.1
        subst hrc
        simp only [assignToAgent, List.map_cons, if_pos hc]
        have hrest : assignToAgent rest r.id agentId now = rest := by
          refine assignToAgent_of_absent (fun d hd hdr => ?_) agentId now
          exact hnd.1 (hc ▸ hdr ▸ List.mem_map_of_mem Command.id hd)
        have hassign :
            (rest.map fun c =>
              if c.id = r.id then
                { c with status := .RUNNING, agentId := some agentId,
                         updatedAt := now, assignedAt := some now }
              else c) = rest := hrest
        rw [hassign]
        simp only [eligibleIds, List.filter_cons, if_pos hel, List.map_cons,
          List.erase_cons_head]
        rw [if_neg (by simp [eligible])]
      · have hmem' : r ∈ rest := by
          rcases List.mem_cons.mp hmem with h | h
          · exact absurd (congrArg Command.id h.symm) hc
          · exact h
        have ih' := ih hnd.2 hmem'
        simp only [assignToAgent, List.map_cons, if_neg hc]
        by_cases hce : eligible c = true
        · simp only [eligibleIds, List.filter_cons, hce, if_pos, List.map_cons]
          have herase : (c.id :: (rest.filter eligible).map Command.id).erase r.id
              = c.id :: ((rest.filter eligible).map Command.id).erase r.id :=
            List.erase_cons_tail (by simp [hc])
          rw [herase]
          simp only [eligibleIds, assignToAgent] at ih'
          rw [ih']
        · simp only [eligibleIds, List.filter_cons, hce]
          simp only [eligibleIds, assignToAgent] at ih'
          simpa using ih'

/-! ### Lemmas about claiming -/

theorem getNextPendingCommand_of_no_eligible {store : Store}
    (h : store.filter eligible = []) (a : String) (t : Nat) :
    getNextPendingCommand store a t = (none, store) := by
  simp [getNextPendingCommand, findNextPending_eq_none.mpr h]

theorem getNextPendingCommand_of_found {store : Store} {r : Command}
    (h : findNextPending store = some r) (a : String) (t : Nat) :
    getNextPendingCommand store a t =
      (some { r with status := .RUNNING, agentId := some a,
                     updatedAt := t, assignedAt := some t },
       assignToAgent store r.id a t) := by
  simp [getNextPendingCommand, h]

theorem eligibleIds_eq_nil {store : Store} (h : eligibleIds store = []) :
    store.filter eligible = [] := by
  unfold eligibleIds at h
  exact List.map_eq_nil_iff.mp h

theorem claimSeq_spec : ∀ (params : List (String × Nat)) (store : Store),
    (store.map Command.id).Nodup →
    params.length = (eligibleIds store).length →
    (∀ o ∈ (claimSeq store params).1, ∃ c, o = some c ∧ c.status = .RUNNING) ∧
    ((claimSeq store params).1.filterMap (fun o => o.map Command.id)).Perm
      (eligibleIds store) ∧
    ∀ a t, getNextPendingCommand (claimSeq store params).2 a t =
      (none, (claimSeq store params).2) := by
  intro params
  induction params with
  | nil =>
      intro store hnd hlen
      have hnil : eligibleIds store = [] :=
        List.eq_nil_of_length_eq_zero hlen.symm
      refine ⟨by simp [claimSeq], by simp [claimSeq, hnil], ?_⟩
      intro a t
      simpa [claimSeq] using
        getNextPendingCommand_of_no_eligible (eligibleIds_eq_nil hnil) a t
  | cons p rest ih =>
      obtain ⟨a, t⟩ := p
      intro store hnd hlen
      simp only [List.length_cons] at hlen
      cases hfind : findNextPending store with
      | none =>
          have : store.filter eligible = [] := findNextPending_eq_none.mp hfind
          rw [show eligibleIds store = [] by simp [eligibleIds, this]] at hlen
          simp at hlen
      | some r =>
          obtain ⟨hmem, hel, -⟩ := findNextPending_spec hfind
          set cl : Command :=
            { r with status := .RUNNING, agentId := some a,
                     updatedAt := t, assignedAt := some t } with hcl
          set store' := assignToAgent store r.id a t with hstore'
          have hstep : getNextPendingCommand store a t = (some cl, store') :=
            getNextPendingCommand_of_found hfind a t
          have hnd' : (store'.map Command.id).Nodup := by
            rw [hstore', assignToAgent_map_id]; exact hnd
          have helig : eligibleIds store' = (eligibleIds store).erase r.id :=
            eligibleIds_assign hnd hmem hel a t
          have hmemid : r.id ∈ eligibleIds store :=
            List.mem_map_of_mem Command.id (List.mem_filter.mpr ⟨hmem, hel⟩)
          have hlen' : rest.length = (eligibleIds store').length := by
            rw [helig, List.length_erase_of_mem hmemid]
            omega
          obtain ⟨ihall, ihperm, ihnone⟩ := ih store' hnd' hlen'
          have hseq : claimSeq store ((a, t) :: rest) =
              (some cl :: (claimSeq store' rest).1, (claimSeq store' rest).2) := by
            simp [claimSeq, hstep]
          rw [hseq]
          refine ⟨?_, ?_, ?_⟩
          · intro o ho
            rcases List.mem_cons.mp ho with ho | ho
            · exact ⟨cl, ho, rfl⟩
            · exact ihall o ho
          · simp only [List.filterMap_cons]
            have hclid : cl.id = r.id := rfl
            simp only [Option.map_some', hclid]
            refine (ihperm.cons r.id).trans ?_
            rw [helig]
            exact (List.perm_cons_erase hmemid).symm
          · exact ihnone

/-! ### Lemmas about recovery -/

theorem reset_fst_eq_countRunning (now : Nat) (store : Store) :
    (resetRunningToFailed now store).1 = countRunning store := by
  induction store with
  | nil => rfl
  | cons c rest ih =>
      simp only [resetRunningToFailed, countRunning, List.filter_cons]
      by_cases hc : c.status = .RUNNING
      · simp only [if_pos hc, hc, decide_True, List.length_cons]
        simpa [countRunning] using ih
      · simp only [if_neg hc, hc, decide_False]
        simpa [countRunning, hc] using ih

theorem reset_snd_eq_map (now : Nat) (store : Store) :
    (resetRunningToFailed now store).2 = store.map (recoverRow now) := by
  induction store with
  | nil => rfl
  | cons c rest ih =>
      simp only [resetRunningToFailed, List.map_cons, recoverRow]
      by_cases hc : c.status = .RUNNING
      · simp [if_pos hc, ih]
      · simp [if_neg hc, ih]

theorem reset_of_no_running {store : Store}
    (h : ∀ c ∈ store, c.status ≠ .RUNNING) (now : Nat) :
    resetRunningToFailed now store = (0, store) := by
  induction store with
  | nil => rfl
  | cons c rest ih =>
      have hc : c.status ≠ .RUNNING := h c (List.mem_cons_self _ _)
      have ih' := ih fun d hd => h d (List.mem_cons_of_mem _ hd)
      simp [resetRunningToFailed, ih', hc]

theorem reset_no_running_after (now : Nat) (store : Store) :
    ∀ c ∈ (resetRunningToFailed now store).2, c.status ≠ .RUNNING := by
  rw [reset_snd_eq_map]
  intro c hc
  obtain ⟨d, -, rfl⟩ := List.mem_map.mp hc
  unfold recoverRow
  by_cases hd : d.status = .RUNNING <;> simp [hd]

/-! ### Lemmas about result submission -/

theorem updateResult_preserves_inv {store : Store} (hinv : StoreInv store)
    (id : String) (result : CommandResult) (now : Nat) :
    StoreInv (updateResult store id result now) := by
  intro c hc
  obtain ⟨d, hd, rfl⟩ := List.mem_map.mp hc
  by_cases hid : d.id = id
  · simp [hid]
  · simpa [hid] using hinv d hd

/-! ### Claim theorems -/

/-- C1: against a store with distinct command ids holding N eligible
(PENDING/FAILED) commands, a sequence of N claim calls returns a command to
every caller, each returned command is bound to RUNNING by the same
operation, the returned ids are exactly the eligible ids with no id returned
twice, the next claim after the N-th returns none without changing the
store, and any claim finding no eligible command returns none and leaves the
store unchanged. -/
theorem claim_exhaustion_exactly_once (store : Store)
    (params : List (String × Nat)) (a : String) (t : Nat)
    (hnd : (store.map Command.id).Nodup)
    (hlen : params.length = (eligibleIds store).length) :
    (∀ o ∈ (claimSeq store params).1, ∃ c, o = some c ∧ c.status = .RUNNING) ∧
    ((claimSeq store params).1.filterMap (fun o => o.map Command.id)).Perm
      (eligibleIds store) ∧
    ((claimSeq store params).1.filterMap (fun o => o.map Command.id)).Nodup ∧
    getNextPendingCommand (claimSeq store params).2 a t =
      (none, (claimSeq store params).2) ∧
    (store.filter eligible = [] →
      getNextPendingCommand store a t = (none, store)) := by
  obtain ⟨h1, h2, h3⟩ := claimSeq_spec params store hnd hlen
  have hsub : List.Sublist (eligibleIds store) (store.map Command.id) :=
    (List.filter_sublist store).map Command.id
  have hend : (eligibleIds store).Nodup := hnd.sublist hsub
  exact ⟨h1, h2, h2.nodup_iff.mpr hend, h3 a t,
    fun h => getNextPendingCommand_of_no_eligible h a t⟩

/-- Witness for C1: a store with one PENDING and one older FAILED command and
two claim calls; both hypotheses hold by computation. -/
theorem claim_exhaustion_exactly_once_witness :
    ((([exPending, exFailed] : Store).map Command.id).Nodup ∧
      ([("agent-1", 10), ("agent-2", 11)] : List (String × Nat)).length =
        (eligibleIds [exPending, exFailed]).length) ∧
    ((∀ o ∈ (claimSeq [exPending, exFailed]
        [("agent-1", 10), ("agent-2", 11)]).1,
        ∃ c, o = some c ∧ c.status = .RUNNING) ∧
      ((claimSeq [exPending, exFailed]
          [("agent-1", 10), ("agent-2", 11)]).1.filterMap
            (fun o => o.map Command.id)).Perm
        (eligibleIds [exPending, exFailed]) ∧
      ((claimSeq [exPending, exFailed]
          [("agent-1", 10), ("agent-2", 11)]).1.filterMap
            (fun o => o.map Command.id)).Nodup ∧
      getNextPendingCommand
          (claimSeq [exPending, exFailed] [("agent-1", 10), ("agent-2", 11)]).2
          "agent-3" 12 =
        (none,
          (claimSeq [exPending, exFailed]
            [("agent-1", 10), ("agent-2", 11)]).2) ∧
      (([exPending, exFailed] : Store).filter eligible = [] →
        getNextPendingCommand [exPending, exFailed] "agent-3" 12 =
          (none, [exPending, exFailed]))) :=
  ⟨⟨by decide, by decide⟩,
    claim_exhaustion_exactly_once [exPending, exFailed]
      [("agent-1", 10), ("agent-2", 11)] "agent-3" 12
      (by decide) (by decide)⟩

/-- C2: when at least one PENDING or FAILED command exists, claim returns the
assigned copy of a command of minimal `createdAt` among all eligible
commands, PENDING and FAILED forming one ordering pool. -/
theorem claim_returns_oldest_eligible (store : Store) (agentId : String)
    (now : Nat) (h : ∃ c ∈ store, eligible c = true) :
    ∃ r ∈ store, eligible r = true ∧
      (∀ d ∈ store, eligible d = true → r.createdAt ≤ d.createdAt) ∧
      (getNextPendingCommand store agentId now).1 =
        some { r with status := .RUNNING, agentId := some agentId,
                      updatedAt := now, assignedAt := some now } := by
  cases hfind : findNextPending store with
  | none =>
      obtain ⟨c, hc, hce⟩ := h
      have hmem : c ∈ store.filter eligible := List.mem_filter.mpr ⟨hc, hce⟩
      rw [findNextPending_eq_none.mp hfind] at hmem
      simp at hmem
  | some r =>
      obtain ⟨hmem, hel, hmin⟩ := findNextPending_spec hfind
      exact ⟨r, hmem, hel, hmin, by simp [getNextPendingCommand, hfind]⟩

/-- Witness for C2: a FAILED command older than every PENDING command is
selected first. -/
theorem claim_returns_oldest_eligible_witness :
    (∃ c ∈ ([exPending, exFailed] : Store), eligible c = true) ∧
    ∃ r ∈ ([exPending, exFailed] : Store), eligible r = true ∧
      (∀ d ∈ ([exPending, exFailed] : Store), eligible d = true →
        r.createdAt ≤ d.createdAt) ∧
      (getNextPendingCommand [exPending, exFailed] "agent-2" 10).1 =
        some { r with status := .RUNNING, agentId := some "agent-2",
                      updatedAt := 10, assignedAt := some 10 } :=
  ⟨by decide,
    claim_returns_oldest_eligible [exPending, exFailed] "agent-2" 10
      (by decide)⟩

/-- C3: recovery returns the number of rows that were RUNNING, and rewrites
the store pointwise: every RUNNING row becomes FAILED with `agentId` and
`assignedAt` cleared and `updatedAt := now`, every other row is unchanged
(`recoverRow` is the identity on it). -/
theorem recover_counts_and_frame (store : Store) (now : Nat) :
    (resetRunningToFailed now store).1 = countRunning store ∧
    (resetRunningToFailed now store).2 = store.map (recoverRow now) ∧
    (∀ c, c.status ≠ .RUNNING → recoverRow now c = c) ∧
    (∀ c, c.status = .RUNNING → recoverRow now c =
      { c with status := .FAILED, updatedAt := now,
               agentId := none, assignedAt := none }) :=
  ⟨reset_fst_eq_countRunning now store, reset_snd_eq_map now store,
    fun c hc => by simp [recoverRow, hc],
    fun c hc => by simp [recoverRow, hc]⟩

/-- C8: a second recovery with no intervening claims reclaims nothing: it
returns count 0 and leaves every command unchanged. -/
theorem recover_idempotent (store : Store) (now1 now2 : Nat) :
    resetRunningToFailed now2 (resetRunningToFailed now1 store).2 =
      (0, (resetRunningToFailed now1 store).2) :=
  reset_of_no_running (reset_no_running_after now1 store) now2

/-- C4: for a submit call carrying an agent id (non-empty, so the transport's
missing-field guard does not fire), the preconditions are checked in order —
unknown command id yields notFound, a non-RUNNING command yields invalidState
even if ownership also differs, a RUNNING command bound to another agent
yields ownershipMismatch — and every failing check leaves the store
unchanged. -/
theorem submit_precondition_order (store : Store) (id agentId : String)
    (result : CommandResult) (now : Nat) (c : Command) (hne : agentId ≠ "") :
    (findById store id = none →
      updateCommandResult store id agentId result now = (.notFound, store)) ∧
    (findById store id = some c → c.status ≠ .RUNNING →
      updateCommandResult store id agentId result now =
        (.invalidState, store)) ∧
    (findById store id = some c → c.status = .RUNNING →
      c.agentId ≠ some agentId →
      updateCommandResult store id agentId result now =
        (.ownershipMismatch, store)) := by
  unfold updateCommandResult
  rw [if_neg hne]
  refine ⟨fun h => by rw [h], fun h hs => ?_, fun h hs ho => ?_⟩
  · rw [h]
    simp [hs]
  · rw [h]
    simp [hs, ho]

/-- Witness for C4: a store holding one RUNNING command bound to agent-1,
submitted against by agent-2. -/
theorem submit_precondition_order_witness :
    ("agent-2" : String) ≠ "" ∧
    ((findById [exRunning] "cmd-c" = none →
      updateCommandResult [exRunning] "cmd-c" "agent-2" (.delay true 5) 9 =
        (.notFound, [exRunning])) ∧
    (findById [exRunning] "cmd-c" = some exRunning →
      exRunning.status ≠ .RUNNING →
      updateCommandResult [exRunning] "cmd-c" "agent-2" (.delay true 5) 9 =
        (.invalidState, [exRunning])) ∧
    (findById [exRunning] "cmd-c" = some exRunning →
      exRunning.status = .RUNNING →
      exRunning.agentId ≠ some "agent-2" →
      updateCommandResult [exRunning] "cmd-c" "agent-2" (.delay true 5) 9 =
        (.ownershipMismatch, [exRunning]))) :=
  ⟨by decide,
    submit_precondition_order [exRunning] "cmd-c" "agent-2" (.delay true 5) 9
      exRunning (by decide)⟩

/-- C7: when all three submit preconditions hold, the reply is ok and the
store is rewritten pointwise: the row(s) with the submitted id get
`status := COMPLETED`, `result := some result`, `updatedAt := now` while
`id`, `type`, `payload`, `agentId`, `createdAt` and `assignedAt` keep their
values, and every row with a different id is untouched. -/
theorem submit_success_frame (store : Store) (id agentId : String)
    (result : CommandResult) (now : Nat) (c : Command) (hne : agentId ≠ "")
    (hfind : findById store id = some c) (hrun : c.status = .RUNNING)
    (hown : c.agentId = some agentId) :
    updateCommandResult store id agentId result now =
      (.ok, store.map fun d =>
        if d.id = id then
          { id := d.id, type := d.type, payload := d.payload,
            status := .COMPLETED, result := some result, agentId := d.agentId,
            createdAt := d.createdAt, updatedAt := now,
            assignedAt := d.assignedAt }
        else d) := by
  simp only [updateCommandResult, if_neg hne, hfind]
  rw [if_neg (by simp [hrun]), if_neg (by simp [hown])]
  rfl

/-- Witness for C7: agent-1 successfully completes its RUNNING command. -/
theorem submit_success_frame_witness :
    (("agent-1" : String) ≠ "" ∧
      findById [exRunning, exPending] "cmd-c" = some exRunning ∧
      exRunning.status = .RUNNING ∧
      exRunning.agentId = some "agent-1") ∧
    updateCommandResult [exRunning, exPending] "cmd-c" "agent-1"
        (.delay true 5) 9 =
      (.ok, ([exRunning, exPending] : Store).map fun d =>
        if d.id = "cmd-c" then
          { id := d.id, type := d.type, payload := d.payload,
            status := .COMPLETED, result := some (.delay true 5),
            agentId := d.agentId, createdAt := d.createdAt, updatedAt := 9,
            assignedAt := d.assignedAt }
        else d) :=
  ⟨⟨by decide, by decide, by decide, by decide⟩,
    submit_success_frame [exRunning, exPending] "cmd-c" "agent-1"
      (.delay true 5) 9 exRunning (by decide) (by decide) (by decide)
      (by decide)⟩

/-- C5: the invariant "result is non-null iff status = COMPLETED" is
preserved by every core operation applied to a store (with distinct ids)
already satisfying it: creation inserts a result-free PENDING row, claiming
moves a result-free eligible row to RUNNING without touching its result,
recovery moves result-free RUNNING rows to FAILED, and submit sets the
result and COMPLETED together in one write. -/
theorem result_iff_completed_invariant (store : Store)
    (hinv : StoreInv store) (hnd : (store.map Command.id).Nodup)
    (idc : String) (ty : CommandType) (pl : String) (n1 : Nat)
    (a : String) (n2 n3 : Nat) (sid sa : String) (r : CommandResult)
    (n4 : Nat) :
    StoreInv (createCommand store idc ty pl n1) ∧
    StoreInv (getNextPendingCommand store a n2).2 ∧
    StoreInv (resetRunningToFailed n3 store).2 ∧
    StoreInv (updateCommandResult store sid sa r n4).2 := by
  refine ⟨?_, ?_, ?_, ?_⟩
  · intro c hc
    rcases List.mem_append.mp hc with h | h
    · exact hinv c h
    · simp at h
      subst h
      simp
  · cases hfind : findNextPending store with
    | none => simpa [getNextPendingCommand, hfind] using hinv
    | some row =>
        obtain ⟨hmem, hel, -⟩ := findNextPending_spec hfind
        have hcases : row.status = .PENDING ∨ row.status = .FAILED := by
          simpa [eligible] using hel
        have hnc : row.status ≠ .COMPLETED := by
          rcases hcases with h | h <;> simp [h]
        have hres : row.result = none := by
          by_contra hcon
          exact hnc ((hinv row hmem).mp hcon)
        simp only [getNextPendingCommand, hfind]
        intro c hc
        obtain ⟨d, hd, rfl⟩ := List.mem_map.mp hc
        by_cases hid : d.id = row.id
        · have hdr : d = row := List.inj_on_of_nodup_map hnd hd hmem hid
          subst hdr
          simp [hid, hres]
        · simpa [hid] using hinv d hd
  · rw [reset_snd_eq_map]
    intro c hc
    obtain ⟨d, hd, rfl⟩ := List.mem_map.mp hc
    by_cases hds : d.status = .RUNNING
    · have hne : d.status ≠ .COMPLETED := by simp [hds]
      have hres : d.result = none := by
        by_contra hcon
        exact hne ((hinv d hd).mp hcon)
      simp [recoverRow, hds, hres]
    · simpa [recoverRow, hds] using hinv d hd
  · unfold updateCommandResult
    by_cases hsa : sa = ""
    · simpa [hsa] using hinv
    · rw [if_neg hsa]
      cases hfind : findById store sid with
      | none => simpa using hinv
      | some c =>
          by_cases hcs : c.status = .RUNNING
          · by_cases hco : c.agentId = some sa
            · simpa [hcs, hco] using updateResult_preserves_inv hinv sid r n4
            · simpa [hcs, hco] using hinv
          · simpa [hcs] using hinv

/-- Witness for C5: concrete invariant-satisfying store with distinct ids;
all four operations preserve the invariant. -/
theorem result_iff_completed_invariant_witness :
    (StoreInv [exRunning, exPending] ∧
      (([exRunning, exPending] : Store).map Command.id).Nodup) ∧
    (StoreInv (createCommand [exRunning, exPending] "cmd-z" .DELAY "ms=2" 20) ∧
      StoreInv (getNextPendingCommand [exRunning, exPending] "agent-2" 21).2 ∧
      StoreInv (resetRunningToFailed 22 [exRunning, exPending]).2 ∧
      StoreInv (updateCommandResult [exRunning, exPending] "cmd-c" "agent-1"
        (.delay true 5) 23).2) :=
  ⟨⟨by decide, by decide⟩,
    result_iff_completed_invariant [exRunning, exPending] (by decide)
      (by decide) "cmd-z" .DELAY "ms=2" 20 "agent-2" 21 22 "cmd-c" "agent-1"
      (.delay true 5) 23⟩

/-- C6 (evaluation at the failing input): when the claimed command's id is
already recorded in the idempotency guard, the cycle outcome is independent
of the executor (`run` is never consulted, so re-execution is indeed
skipped), but no submission happens in that cycle: `executeCommand` throws
"Command already executed" and the poll loop's catch block only logs and
sleeps, leaving the guard unchanged and the command unreported. -/
theorem idempotent_hit_skips_and_does_not_submit
    (run : Command → Except String CommandResult) :
    agentCycle ["cmd-b"] (some exPending) run = (none, ["cmd-b"]) := rfl

/-- C9: for a fetched response of length L, the executor reports the full
untruncated length in `bytesReturned`, sets `truncated` exactly when
L > 100KB, and returns as body text the first min(L, 100KB) units of the
response. -/
theorem http_get_json_truncation (status : Nat) (text : List Char) :
    (executeHttpGetJson (.ok (status, text))).bytesReturned = text.length ∧
    ((executeHttpGetJson (.ok (status, text))).truncated = true ↔
      text.length > MAX_BODY_SIZE) ∧
    (executeHttpGetJson (.ok (status, text))).body =
      some (text.take MAX_BODY_SIZE) ∧
    (text.take MAX_BODY_SIZE).length = min text.length MAX_BODY_SIZE := by
  refine ⟨rfl, by simp [executeHttpGetJson], ?_, ?_⟩
  · by_cases h : text.length > MAX_BODY_SIZE
    · simp [executeHttpGetJson, h]
    · simp [executeHttpGetJson, h,
        List.take_of_length_le (Nat.le_of_not_lt h)]
  · simp [List.length_take, Nat.min_comm]

/-- C10: a failed fetch yields the error-bearing result value rather than a
thrown error, and a poll cycle executing such a command (not yet in the
guard) still marks it executed in the guard and submits that error-bearing
result to the coordinator. -/
theorem http_error_still_submits (msg : String) (guard : Guard) (c : Command)
    (h : guard.contains c.id = false) :
    executeHttpGetJson (.error msg) =
      { status := 0, body := none, truncated := false, bytesReturned := 0,
        error := some msg } ∧
    agentCycle guard (some c)
        (fun _ => .ok (.http (executeHttpGetJson (.error msg)))) =
      (some (c.id, .http (executeHttpGetJson (.error msg))),
       guard ++ [c.id]) := by
  refine ⟨rfl, ?_⟩
  have hmem : c.id ∉ guard := by simpa using h
  simp [agentCycle, executeCommand, isCommandExecuted, markCommandExecuted,
    hmem]

/-- Witness for C10: a fresh command whose fetch fails is still submitted. -/
theorem http_error_still_submits_witness :
    (([] : Guard).contains exPending.id = false) ∧
    (executeHttpGetJson (.error "fetch failed") =
      { status := 0, body := none, truncated := false, bytesReturned := 0,
        error := some "fetch failed" } ∧
    agentCycle [] (some exPending)
        (fun _ => .ok (.http (executeHttpGetJson (.error "fetch failed")))) =
      (some (exPending.id, .http (executeHttpGetJson (.error "fetch failed"))),
       [] ++ [exPending.id])) :=
  ⟨by decide, http_error_still_submits "fetch failed" [] exPending (by decide)⟩
